import Mathlib

/-!
Shallow embedding of the registration domain model of e-melder-gui
(src/tournament_info.rs and src/utils.rs), together with proofs of the
behavioural properties of its bucketing algorithm, weight-class parsing,
legacy rendering and file-path construction.

Rust machine integers are represented as `Nat` (the code only ever
parses into `u8` with an explicit range check, modelled by `≤ 255`);
Rust `Option`/fallible operations are `Option`; Rust strings are Lean
`String`, inspected through their character list `String.data` (the
code only slices after a one-byte ASCII sign character, so byte and
character indexing agree where it matters).
-/

namespace EMelder

/-- Belt, src/tournament_info.rs: the 19 rank values Kyu9 … Dan10. -/
inductive Belt where
  | Kyu9 | Kyu8 | Kyu7 | Kyu6 | Kyu5 | Kyu4 | Kyu3 | Kyu2 | Kyu1
  | Dan1 | Dan2 | Dan3 | Dan4 | Dan5 | Dan6 | Dan7 | Dan8 | Dan9 | Dan10
  deriving DecidableEq, Repr

/-- GenderCategory, src/tournament_info.rs: Mixed / Male / Female. -/
inductive GenderCategory where
  | Mixed | Male | Female
  deriving DecidableEq, Repr

/-- GenderCategory::render, src/tournament_info.rs lines 394-401:
the single-letter German codes. -/
def GenderCategory.render : GenderCategory → String
  | .Female => "w"
  | .Male => "m"
  | .Mixed => "g"

/-- WeightCategoryKind, src/tournament_info.rs lines 146-151. -/
inductive WeightCategoryKind where
  | Under | Over
  deriving DecidableEq, Repr

/-- WeightCategory, src/tournament_info.rs lines 153-157: a direction and
a u8 limit (represented as a `Nat`; parsing enforces `≤ 255`). -/
structure WeightCategory where
  kind : WeightCategoryKind
  limit : Nat
  deriving DecidableEq, Repr

/-- Numeric value of a decimal digit string, most significant first:
the accumulation performed by Rust's integer parser. -/
def digitsVal (ds : List Char) : Nat :=
  ds.foldl (fun a c => a * 10 + (c.toNat - 48)) 0

/-- The significant digits seen by Rust's unsigned integer parser: one
optional leading `+` sign is skipped (a leading `-` is rejected for
unsigned types by leaving it in place, where it fails the digit test). -/
def sigDigits (cs : List Char) : List Char :=
  if cs.head? = some '+' then cs.tail else cs

/-- Rust `str::parse::<u8>` (core's from_str_radix at radix 10 for an
unsigned 8-bit type): one optional leading `+` sign, then a non-empty
run of ASCII digits; any value exceeding 255 overflows to an error. -/
def parseU8 (cs : List Char) : Option Nat :=
  if (sigDigits cs).isEmpty then none
  else if (sigDigits cs).all Char.isDigit then
    if digitsVal (sigDigits cs) ≤ 255 then some (digitsVal (sigDigits cs))
    else none
  else none

/-- WeightCategory::from_str, src/tournament_info.rs lines 175-185:
a leading `-` selects Under, a leading `+` selects Over, anything else
fails; the remainder of the string is parsed as a u8 limit. -/
def WeightCategory.from_str (s : String) : Option WeightCategory :=
  if s.data.head? = some '-' then
    (parseU8 s.data.tail).map fun l => ⟨WeightCategoryKind.Under, l⟩
  else if s.data.head? = some '+' then
    (parseU8 s.data.tail).map fun l => ⟨WeightCategoryKind.Over, l⟩
  else none

/-- WeightCategory::render, src/tournament_info.rs lines 165-173:
Over renders as the empty string, Under as the decimal limit. -/
def WeightCategory.render (wc : WeightCategory) : String :=
  match wc.kind with
  | WeightCategoryKind.Over => ""
  | WeightCategoryKind.Under => Nat.repr wc.limit

/-- string_to_iso_8859_1_bytes, src/utils.rs lines 31-33: each character
becomes the single byte `c as u8`, i.e. the code point reduced mod 256. -/
def string_to_iso_8859_1_bytes (s : String) : List Nat :=
  s.data.map fun c => c.toNat % 256

/-- Sender, src/tournament_info.rs lines 252-269: club contact record. -/
structure Sender where
  given_name : String
  sur_name : String
  address : String
  postal_code : Nat
  town : String
  private_phone : String
  public_phone : String
  fax : String
  mobile : String
  mail : String
  deriving DecidableEq, Repr

/-- Club, src/tournament_info.rs lines 322-335. -/
structure Club where
  name : String
  number : Nat
  sender : Sender
  county : String
  region : String
  state : String
  group : String
  nation : String
  deriving DecidableEq, Repr

/-- chrono::NaiveDate as carried opaquely (copied, never inspected) by the
bucketing algorithm. -/
structure NaiveDate where
  year : Int
  month : Nat
  day : Nat
  deriving DecidableEq, Repr

/-- Athlete, src/tournament_info.rs lines 196-210. -/
structure Athlete where
  given_name : String
  sur_name : String
  belt : Belt
  weight_category : WeightCategory
  birth_year : Nat
  gender : GenderCategory
  deriving DecidableEq, Repr

/-- Athlete::new, src/tournament_info.rs lines 213-215 (same argument
order as the source constructor). -/
def Athlete.new (given_name sur_name : String) (birth_year : Nat) (belt : Belt)
    (weight_category : WeightCategory) (gender : GenderCategory) : Athlete :=
  ⟨given_name, sur_name, belt, weight_category, birth_year, gender⟩

/-- Tournament, src/tournament_info.rs lines 413-421. -/
structure Tournament where
  name : String
  date : NaiveDate
  place : String
  age_category : String
  gender_category : GenderCategory
  club : Club
  athletes : List Athlete
  deriving DecidableEq, Repr

/-- Tournament::new, src/tournament_info.rs lines 424-428. -/
def Tournament.new (name : String) (date : NaiveDate) (place age_category : String)
    (gender : GenderCategory) (club : Club) (athletes : List Athlete) : Tournament :=
  ⟨name, date, place, age_category, gender, club, athletes⟩

/-- RegisteringAthlete, src/tournament_info.rs lines 466-476: `gender` is
the athlete's own gender, `gender_category` the (UI-mutable) bracket. -/
structure RegisteringAthlete where
  given_name : String
  sur_name : String
  belt : Belt
  weight_category : String
  birth_year : Nat
  gender_category : GenderCategory
  gender : GenderCategory
  age_category : String
  deriving DecidableEq, Repr

/-- Lookup in the `tournament_meta` hash map of
registering_athletes_to_tournaments, keyed by (age-category string,
gender bracket); keys are inserted at most once, so association-list
lookup has the same semantics as HashMap::get. -/
def lookupMeta (meta : List ((String × GenderCategory) × Nat))
    (k : String × GenderCategory) : Option Nat :=
  match meta with
  | [] => none
  | e :: es => if e.1 = k then some e.2 else lookupMeta es k

/-- In-place update of the element at index `i` (the `ret[*index]` write
of the source; the algorithm only ever uses in-range indices). -/
def modifyAt {α : Type} (l : List α) (i : Nat) (f : α → α) : List α :=
  match l, i with
  | [], _ => []
  | x :: xs, 0 => f x :: xs
  | x :: xs, i + 1 => x :: modifyAt xs i f

/-- Loop body of registering_athletes_to_tournaments,
src/tournament_info.rs lines 533-550: `meta` is the key-to-index map,
`ret` the tournaments built so far.  On a known key the new athlete
(built with the registration's `gender_category`) is appended to that
tournament; on a new key a tournament is created whose single athlete is
built with the registration's `gender` field, exactly as in the source.
A weight-class parse failure aborts with `none` (the source's `?`). -/
def regLoop (name : String) (date : NaiveDate) (place : String) (club : Club) :
    List RegisteringAthlete → List ((String × GenderCategory) × Nat) →
    List Tournament → Option (List Tournament)
  | [], _, ret => some ret
  | ra :: rest, meta, ret =>
    match lookupMeta meta (ra.age_category, ra.gender_category) with
    | some index =>
      match WeightCategory.from_str ra.weight_category with
      | none => none
      | some wc =>
        regLoop name date place club rest meta
          (modifyAt ret index fun t =>
            { t with athletes := t.athletes ++
                [Athlete.new ra.given_name ra.sur_name ra.birth_year ra.belt wc
                  ra.gender_category] })
    | none =>
      match WeightCategory.from_str ra.weight_category with
      | none => none
      | some wc =>
        regLoop name date place club rest
          (meta ++ [((ra.age_category, ra.gender_category), ret.length)])
          (ret ++ [Tournament.new name date place ra.age_category
            ra.gender_category club
            [Athlete.new ra.given_name ra.sur_name ra.birth_year ra.belt wc
              ra.gender]])

/-- registering_athletes_to_tournaments, src/tournament_info.rs
lines 528-552. -/
def registering_athletes_to_tournaments (registering_athletes : List RegisteringAthlete)
    (name : String) (date : NaiveDate) (place : String) (club : Club) :
    Option (List Tournament) :=
  regLoop name date place club registering_athletes [] []

/-- Loop of the free function render, src/tournament_info.rs
lines 452-464: `i` is the loop index, `n` the total athlete count, `ret`
the accumulator; a newline is pushed after every line except the last.
`athleteLine` stands for Athlete::render, whose literal template
(src/athlete-format) is an external asset not present in the sources,
so the per-athlete line is kept abstract. -/
def renderLoop (athleteLine : Athlete → String) (n : Nat) :
    Nat → List Athlete → String → String
  | _, [], ret => ret
  | i, a :: rest, ret =>
    renderLoop athleteLine n (i + 1) rest
      (ret ++ Nat.repr (i + 1) ++ "=\"\"1\"," ++ athleteLine a ++ "\"" ++
        (if i < n - 1 then "\n" else ""))

/-- render, src/tournament_info.rs lines 452-464: the athlete-list block
of the tournament document. -/
def render (athleteLine : Athlete → String) (athletes : List Athlete) : String :=
  renderLoop athleteLine athletes.length 0 athletes ""

/-- Modelled from the spec: the lines the athlete-list block must
consist of — the 1-based index, then the literal characters equal-sign,
quote, quote, 1, quote, comma, then the athlete line, then a closing
quote (`i` is the 0-based index of the first listed athlete). -/
def numberedLines (athleteLine : Athlete → String) :
    Nat → List Athlete → List String
  | _, [] => []
  | i, a :: rest =>
    (Nat.repr (i + 1) ++ "=\"\"1\"," ++ athleteLine a ++ "\"") ::
      numberedLines athleteLine (i + 1) rest

/-- Modelled from the spec: lines joined by exactly one newline, with no
trailing newline after the last line. -/
def joinLines : List String → String
  | [] => ""
  | [l] => l
  | l :: l2 :: ls => l ++ "\n" ++ joinLines (l2 :: ls)

/-- std::path::Path::join for Unix paths: an absolute right operand
replaces the base; otherwise a separator is inserted unless the base
already ends with one. -/
def pathJoin (base p : String) : String :=
  if p.data.head? = some '/' then p
  else if base.data.getLast? = some '/' then base ++ p
  else base ++ "/" ++ p

/-- File name built by write_tournaments, src/utils.rs lines 222-223:
`format!("{}{} ({}).dm4", name, age_category, gender.render())` — the
event name and age category are used verbatim. -/
def tournamentFileName (t : Tournament) : String :=
  t.name ++ t.age_category ++ " (" ++ t.gender_category.render ++ ").dm4"

/-- Output path of write_tournaments, src/utils.rs lines 221-224: the
configured base directory joined with the tournament file name. -/
def tournamentFilePath (base : String) (t : Tournament) : String :=
  pathJoin base (tournamentFileName t)

/-- Modelled from the spec: the fixed blacklist of illegal path
characters on a Unix system — the path separator and NUL. -/
def isIllegalPathChar (c : Char) : Bool :=
  c = '/' || c = Char.ofNat 0

/-- Modelled from the spec: sanitization replaces each blacklisted
character with an underscore. -/
def sanitize (s : String) : String :=
  String.mk (s.data.map fun c => if isIllegalPathChar c then '_' else c)

/-- Modelled from the spec: the output path claimed by the spec,
`{base}/{sanitize(eventName)}{sanitize(ageCategory)} ({bracketCode}).dm4`. -/
def sanitizedTournamentFilePath (base : String) (t : Tournament) : String :=
  pathJoin base
    (sanitize t.name ++ sanitize t.age_category ++ " (" ++
      t.gender_category.render ++ ").dm4")

/-- Default for WeightCategory, src/tournament_info.rs lines 159-163:
Under with limit 10. -/
def WeightCategory.defaultValue : WeightCategory :=
  ⟨WeightCategoryKind.Under, 10⟩

/-- The parsed weight class of a registration, with the source's default
as a (never reached under a parse-success hypothesis) fallback. -/
def parsedWeight (ra : RegisteringAthlete) : WeightCategory :=
  (WeightCategory.from_str ra.weight_category).getD WeightCategory.defaultValue

/-- The Athlete the algorithm builds from a registration, with the given
gender field. -/
def mkAthleteOf (ra : RegisteringAthlete) (g : GenderCategory) : Athlete :=
  Athlete.new ra.given_name ra.sur_name ra.birth_year ra.belt (parsedWeight ra) g

/-- The bucket key of a registration: its age-category string and gender
bracket, compared by exact equality. -/
def regKey (ra : RegisteringAthlete) : String × GenderCategory :=
  (ra.age_category, ra.gender_category)

/-- Modelled from the spec: insert one registration into the ordered
bucket list — the first registration with a new key opens a new bucket
at the end, a registration with a known key is appended to that
bucket's list. -/
def addToBuckets :
    List ((String × GenderCategory) × List RegisteringAthlete) →
    RegisteringAthlete →
    List ((String × GenderCategory) × List RegisteringAthlete)
  | [], ra => [(regKey ra, [ra])]
  | b :: bs, ra =>
    if b.1 = regKey ra then (b.1, b.2 ++ [ra]) :: bs
    else b :: addToBuckets bs ra

/-- Modelled from the spec: group the registrations by key, buckets
ordered by first appearance, registrations within a bucket in input
order. -/
def specBuckets (regs : List RegisteringAthlete) :
    List ((String × GenderCategory) × List RegisteringAthlete) :=
  regs.foldl addToBuckets []

/-- The athletes the algorithm builds for one bucket: the first one with
the registration's `gender` field, later ones with `gender_category`
(matching the two branches of the source loop). -/
def bucketAthletes : List RegisteringAthlete → List Athlete
  | [] => []
  | ra :: rest =>
    mkAthleteOf ra ra.gender :: rest.map fun r => mkAthleteOf r r.gender_category

/-- The Tournament corresponding to one bucket. -/
def bucketTournament (name : String) (date : NaiveDate) (place : String)
    (club : Club) (b : (String × GenderCategory) × List RegisteringAthlete) :
    Tournament :=
  Tournament.new name date place b.1.1 b.1.2 club (bucketAthletes b.2)

/-- The key-to-index map corresponding to a bucket list, indices starting
at `i`. -/
def idxList : List ((String × GenderCategory) × List RegisteringAthlete) →
    Nat → List ((String × GenderCategory) × Nat)
  | [], _ => []
  | b :: bs, i => (b.1, i) :: idxList bs (i + 1)

/-- Index of the first bucket with the given key. -/
def bucketIdx : List ((String × GenderCategory) × List RegisteringAthlete) →
    (String × GenderCategory) → Option Nat
  | [], _ => none
  | b :: bs, k => if b.1 = k then some 0 else (bucketIdx bs k).map (· + 1)

/-- Total number of athletes across a tournament list. -/
def totalAthletes (ts : List Tournament) : Nat :=
  (ts.map fun t => t.athletes.length).sum

/-- The form the claim ascribes to parseable weight-class strings: a
sign character followed directly by a non-empty run of decimal digits
whose value fits in 8 bits. -/
def hasClaimedWeightForm (s : String) : Bool :=
  match s.data with
  | [] => false
  | c :: rest =>
    (c = '-' || c = '+') && !rest.isEmpty && rest.all Char.isDigit &&
      digitsVal rest ≤ 255

/-- The amended form: a sign character, then an optional second `+`
(accepted by Rust's unsigned integer parser), then a non-empty run of
decimal digits whose value fits in 8 bits. -/
def hasAmendedWeightForm (s : String) : Bool :=
  match s.data with
  | [] => false
  | c :: rest =>
    (c = '-' || c = '+') && !(sigDigits rest).isEmpty &&
      (sigDigits rest).all Char.isDigit && digitsVal (sigDigits rest) ≤ 255

/-! Concrete fixtures used by witnesses and counterexamples. -/

/-- A concrete sender record. -/
def sender0 : Sender :=
  ⟨"Max", "Muster", "Street 1", 12345, "Town", "", "", "", "", ""⟩

/-- A concrete club record. -/
def club0 : Club :=
  ⟨"JC Test", 42, sender0, "County", "Region", "State", "Group", "GER"⟩

/-- A concrete date. -/
def date0 : NaiveDate := ⟨2026, 10, 12⟩

/-- Registration A: age category U18, bracket Mixed. -/
def raA : RegisteringAthlete :=
  ⟨"Anna", "Alpha", Belt.Kyu9, "-48", 2008, GenderCategory.Mixed,
    GenderCategory.Female, "U18"⟩

/-- Registration B: age category U18, bracket Mixed. -/
def raB : RegisteringAthlete :=
  ⟨"Ben", "Beta", Belt.Kyu8, "-52", 2009, GenderCategory.Mixed,
    GenderCategory.Male, "U18"⟩

/-- Registration C: age category U21, bracket Male. -/
def raC : RegisteringAthlete :=
  ⟨"Carl", "Gamma", Belt.Dan1, "-73", 2005, GenderCategory.Male,
    GenderCategory.Male, "U21"⟩

/-- A registration whose weight-class string does not parse. -/
def raBad : RegisteringAthlete :=
  ⟨"Dora", "Delta", Belt.Kyu9, "abc", 2008, GenderCategory.Mixed,
    GenderCategory.Female, "U18"⟩

/-! Theorems settling the claims. -/

/-- Claim C10: on an empty list of pending registrations,
registering_athletes_to_tournaments succeeds with the empty tournament
list for every event name, date, place and club. -/
theorem registering_empty_returns_empty (name : String) (date : NaiveDate)
    (place : String) (club : Club) :
    registering_athletes_to_tournaments [] name date place club = some [] := rfl

/-- Claim C4: the encoding step maps each character to exactly one byte
equal to the low 8 bits of its code point, so the byte count equals the
character count; in particular the character U+4E2D encodes to the
single byte 45 (0x2D). -/
theorem encoding_truncates_per_char (s : String) :
    (string_to_iso_8859_1_bytes s).length = s.data.length ∧
    (∀ i : Nat, (string_to_iso_8859_1_bytes s)[i]? =
      (s.data[i]?).map fun c => c.toNat % 256) ∧
    string_to_iso_8859_1_bytes (String.mk ['中']) = [45] := by
  refine ⟨?_, ?_, by decide⟩
  · simp [string_to_iso_8859_1_bytes]
  · intro i
    simp [string_to_iso_8859_1_bytes, List.getElem?_map]

/-- Claim C7: for limits in the u8 range, rendering a weight class yields
the empty string for direction Over and the decimal string of the limit
for direction Under. -/
theorem render_over_empty_under_decimal (n : Nat) (_h : n ≤ 255) :
    WeightCategory.render ⟨WeightCategoryKind.Over, n⟩ = "" ∧
    WeightCategory.render ⟨WeightCategoryKind.Under, n⟩ = Nat.repr n :=
  ⟨rfl, rfl⟩

/-- Witness for claim C7 at the concrete limit 73. -/
theorem render_over_empty_under_decimal_witness :
    (73 ≤ 255) ∧
    (WeightCategory.render ⟨WeightCategoryKind.Over, 73⟩ = "" ∧
     WeightCategory.render ⟨WeightCategoryKind.Under, 73⟩ = Nat.repr 73) :=
  ⟨by decide, render_over_empty_under_decimal 73 (by decide)⟩

/-- The bucketing loop returns `none` as soon as any remaining
registration's weight-class string fails to parse. -/
theorem regLoop_none (name : String) (date : NaiveDate) (place : String)
    (club : Club) :
    ∀ (rest : List RegisteringAthlete) meta ret,
    (∃ r ∈ rest, WeightCategory.from_str r.weight_category = none) →
    regLoop name date place club rest meta ret = none := by
  intro rest
  induction rest with
  | nil =>
    intro meta ret h
    rcases h with ⟨r, hr, _⟩
    cases hr
  | cons ra rest ih =>
    intro meta ret h
    rcases h with ⟨r, hr, hnone⟩
    by_cases hra : WeightCategory.from_str ra.weight_category = none
    · cases hidx : lookupMeta meta (ra.age_category, ra.gender_category) <;>
        simp [regLoop, hidx, hra]
    · have hrrest : r ∈ rest := by
        rcases List.mem_cons.mp hr with h1 | h1
        · exact absurd (h1 ▸ hnone) hra
        · exact h1
      cases hwc : WeightCategory.from_str ra.weight_category with
      | none => exact absurd hwc hra
      | some wc =>
        cases hidx : lookupMeta meta (ra.age_category, ra.gender_category) <;>
          simp [regLoop, hidx, hwc] <;>
          exact ih _ _ ⟨r, hrrest, hnone⟩

/-- Claim C2: if any registration's weight-class string fails to parse,
registering_athletes_to_tournaments returns `none` (no tournaments at
all), wherever the bad entry sits. -/
theorem registering_fails_on_unparseable (regs : List RegisteringAthlete)
    (name : String) (date : NaiveDate) (place : String) (club : Club)
    (h : ∃ r ∈ regs, WeightCategory.from_str r.weight_category = none) :
    registering_athletes_to_tournaments regs name date place club = none :=
  regLoop_none name date place club regs [] [] h

/-- Witness for claim C2: a bad entry in the middle of an otherwise
valid input yields `none`. -/
theorem registering_fails_on_unparseable_witness :
    (∃ r ∈ [raA, raBad, raC], WeightCategory.from_str r.weight_category = none) ∧
    registering_athletes_to_tournaments [raA, raBad, raC] "Cup" date0 "Town" club0 =
      none :=
  ⟨by decide,
   registering_fails_on_unparseable [raA, raBad, raC] "Cup" date0 "Town" club0
     (by decide)⟩

/-- Unfolding of the render loop: each line is appended to the
accumulator, with a newline after every line that is not the last. -/
theorem renderLoop_joins (f : Athlete → String) (n : Nat) :
    ∀ (xs : List Athlete) (i : Nat) (ret : String), i + xs.length = n →
    renderLoop f n i xs ret = ret ++ joinLines (numberedLines f i xs) := by
  intro xs
  induction xs with
  | nil =>
    intro i ret h
    simp [renderLoop, numberedLines, joinLines, String.append_empty]
  | cons a xs ih =>
    intro i ret h
    cases xs with
    | nil =>
      have hn : ¬ i < n - 1 := by
        simp [List.length_cons] at h
        omega
      simp [renderLoop, numberedLines, joinLines, hn, String.append_empty,
        String.append_assoc]
    | cons b xs2 =>
      have hlt : i < n - 1 := by
        simp [List.length_cons] at h
        omega
      rw [renderLoop, if_pos hlt,
        ih (i + 1) _ (by simp [List.length_cons] at h ⊢; omega)]
      simp [numberedLines, joinLines, String.append_assoc]

/-- Claim C8: the athlete-list block is exactly the numbered lines (with
the 1-based index, the literal doubled-quoted 1 and the closing quote)
joined by single newlines with no trailing newline, for every athlete
line renderer. -/
theorem athlete_block_is_joined_lines (f : Athlete → String)
    (athletes : List Athlete) :
    render f athletes = joinLines (numberedLines f 0 athletes) := by
  have h := renderLoop_joins f athletes.length athletes 0 "" (Nat.zero_add _)
  simpa [render, String.empty_append] using h

/-- Sanitization is the identity on strings without blacklisted
characters. -/
theorem sanitize_id (s : String)
    (h : ∀ c ∈ s.data, isIllegalPathChar c = false) : sanitize s = s := by
  cases s with
  | mk data =>
    show String.mk (data.map fun c => if isIllegalPathChar c then '_' else c) =
      String.mk data
    congr 1
    have hcong : ∀ c ∈ data,
        (fun c => if isIllegalPathChar c then '_' else c) c = id c := by
      intro c hc
      simp [h c hc]
    rw [List.map_congr_left hcong, List.map_id]

/-- A concrete tournament whose event name contains a blacklisted path
character. -/
def tSlash : Tournament :=
  Tournament.new "a/b" date0 "Town" "U18" GenderCategory.Mixed club0 []

/-- A concrete tournament matching the spec's file-naming example. -/
def tCup : Tournament :=
  Tournament.new "Cup" date0 "Town" "U18" GenderCategory.Mixed club0 []

/-- Counterexample to claim C5: write_tournaments applies no
sanitization, so a blacklisted character in the event name reaches the
path verbatim instead of being replaced by an underscore. -/
theorem path_not_sanitized :
    tournamentFilePath "/out" tSlash ≠ sanitizedTournamentFilePath "/out" tSlash ∧
    tournamentFilePath "/out" tSlash = "/out/a/bU18 (g).dm4" := by
  constructor
  · decide
  · decide

/-- Claim C5 as amended: the output path is the base directory joined
with the verbatim event name and age category followed by the
space-parenthesised bracket code and the `.dm4` suffix — no
sanitization is applied; it coincides with the sanitized form exactly
when the name and age category contain no blacklisted character, and
the spec's concrete example holds. -/
theorem path_is_verbatim_name (base : String) (t : Tournament)
    (h : ∀ c ∈ t.name.data ++ t.age_category.data, isIllegalPathChar c = false) :
    tournamentFilePath base t =
      pathJoin base (t.name ++ t.age_category ++ " (" ++
        t.gender_category.render ++ ").dm4") ∧
    tournamentFilePath base t = sanitizedTournamentFilePath base t ∧
    tournamentFilePath "/out" tCup = "/out/CupU18 (g).dm4" := by
  refine ⟨rfl, ?_, by decide⟩
  have hname : sanitize t.name = t.name :=
    sanitize_id t.name fun c hc => h c (List.mem_append.mpr (Or.inl hc))
  have hage : sanitize t.age_category = t.age_category :=
    sanitize_id t.age_category fun c hc => h c (List.mem_append.mpr (Or.inr hc))
  simp [tournamentFilePath, sanitizedTournamentFilePath, tournamentFileName,
    hname, hage]

/-- Witness for the amended claim C5 at the spec's example tournament. -/
theorem path_is_verbatim_name_witness :
    (∀ c ∈ tCup.name.data ++ tCup.age_category.data, isIllegalPathChar c = false) ∧
    (tournamentFilePath "/out" tCup =
      pathJoin "/out" (tCup.name ++ tCup.age_category ++ " (" ++
        tCup.gender_category.render ++ ").dm4") ∧
     tournamentFilePath "/out" tCup = sanitizedTournamentFilePath "/out" tCup ∧
     tournamentFilePath "/out" tCup = "/out/CupU18 (g).dm4") :=
  ⟨by decide, path_is_verbatim_name "/out" tCup (by decide)⟩

/-- Success condition of the u8 parser: the sign-stripped remainder is a
non-empty run of decimal digits whose value fits in 8 bits. -/
theorem parseU8_isSome (cs : List Char) :
    (parseU8 cs).isSome = true ↔
      ((sigDigits cs).isEmpty = false ∧
       (sigDigits cs).all Char.isDigit = true ∧
       digitsVal (sigDigits cs) ≤ 255) := by
  unfold parseU8
  split_ifs with h1 h2 h3 <;> simp_all

/-- Counterexample to claim C6: the string made of minus, plus, five is
not of the claimed sign-then-digits form, yet it parses successfully
(Rust's unsigned parser accepts one extra leading plus sign after the
direction character). -/
theorem weight_from_str_double_sign :
    WeightCategory.from_str "-+5" = some ⟨WeightCategoryKind.Under, 5⟩ ∧
    hasClaimedWeightForm "-+5" = false := by
  constructor
  · decide
  · decide

/-- Claim C6 as amended: weight-class parsing succeeds exactly on
strings that start with a direction character minus or plus, followed by
an optional extra plus sign, followed by a non-empty run of decimal
digits whose value fits in 8 bits; when it succeeds, a leading minus
gives direction Under and a leading plus gives direction Over. -/
theorem weight_from_str_amended (s : String) :
    ((WeightCategory.from_str s).isSome = true ↔ hasAmendedWeightForm s = true) ∧
    (∀ wc, WeightCategory.from_str s = some wc →
      ((s.data.head? = some '-' ∧ wc.kind = WeightCategoryKind.Under) ∨
       (s.data.head? = some '+' ∧ wc.kind = WeightCategoryKind.Over))) := by
  constructor
  · cases hs : s.data with
    | nil => simp [WeightCategory.from_str, hasAmendedWeightForm, hs]
    | cons c rest =>
      by_cases hc1 : c = '-'
      · subst hc1
        simp [WeightCategory.from_str, hasAmendedWeightForm, hs, parseU8_isSome,
          Bool.and_eq_true, decide_eq_true_eq, and_assoc]
      · by_cases hc2 : c = '+'
        · subst hc2
          simp [WeightCategory.from_str, hasAmendedWeightForm, hs, parseU8_isSome,
            Bool.and_eq_true, decide_eq_true_eq, and_assoc]
        · simp [WeightCategory.from_str, hasAmendedWeightForm, hs, hc1, hc2]
  · intro wc hwc
    unfold WeightCategory.from_str at hwc
    by_cases hc1 : s.data.head? = some '-'
    · rw [if_pos hc1] at hwc
      cases hp : parseU8 s.data.tail with
      | none => rw [hp] at hwc; cases hwc
      | some l =>
        rw [hp] at hwc
        simp at hwc
        exact Or.inl ⟨hc1, by rw [← hwc]⟩
    · rw [if_neg hc1] at hwc
      by_cases hc2 : s.data.head? = some '+'
      · rw [if_pos hc2] at hwc
        cases hp : parseU8 s.data.tail with
        | none => rw [hp] at hwc; cases hwc
        | some l =>
          rw [hp] at hwc
          simp at hwc
          exact Or.inr ⟨hc2, by rw [← hwc]⟩
      · rw [if_neg hc2] at hwc
        cases hwc

/-- Witness for the amended claim C6 at the concrete string minus-60. -/
theorem weight_from_str_amended_witness :
    (WeightCategory.from_str "-60").isSome = true ∧
    ((String.data "-60").head? = some '-' ∧
        (WeightCategory.mk WeightCategoryKind.Under 60).kind =
          WeightCategoryKind.Under ∨
     (String.data "-60").head? = some '+' ∧
        (WeightCategory.mk WeightCategoryKind.Under 60).kind =
          WeightCategoryKind.Over) :=
  ⟨(weight_from_str_amended "-60").1.mpr (by decide),
   (weight_from_str_amended "-60").2 ⟨WeightCategoryKind.Under, 60⟩ (by decide)⟩

/-- A registration whose own gender (Female) differs from its bracket
(Mixed). -/
def raEva : RegisteringAthlete :=
  ⟨"Eva", "Epsilon", Belt.Kyu5, "-57", 2007, GenderCategory.Mixed,
    GenderCategory.Female, "U18"⟩

/-- A second registration with the same key whose own gender (Male)
differs from its bracket (Mixed). -/
def raFritz : RegisteringAthlete :=
  ⟨"Fritz", "Zeta", Belt.Kyu4, "-60", 2007, GenderCategory.Mixed,
    GenderCategory.Male, "U18"⟩

/-- Claim C3 evaluated at the failing input: both registrations carry the
bracket Mixed, yet the Athlete built on the first occurrence of the key
carries Female — the registration's own `gender` field (source line 545)
— while the Athlete appended on the second occurrence carries the
bracket Mixed (source line 538). -/
theorem first_athlete_carries_own_gender :
    raEva.gender_category = GenderCategory.Mixed ∧
    raEva.gender = GenderCategory.Female ∧
    raFritz.gender_category = GenderCategory.Mixed ∧
    ((registering_athletes_to_tournaments [raEva, raFritz] "Cup" date0 "Town"
        club0).map fun ts => ts.map fun t => t.athletes.map fun a => a.gender) =
      some [[GenderCategory.Female, GenderCategory.Mixed]] :=
  ⟨rfl, rfl, rfl, by decide⟩

/-- Association-list lookup over the index list of a bucket list finds
the position of the first bucket with the key, shifted by the start
index. -/
theorem lookupMeta_idxList (k : String × GenderCategory) :
    ∀ (bs : List ((String × GenderCategory) × List RegisteringAthlete)) (i : Nat),
    lookupMeta (idxList bs i) k = (bucketIdx bs k).map (· + i) := by
  intro bs
  induction bs with
  | nil => intro i; rfl
  | cons b bs ih =>
    intro i
    by_cases hb : b.1 = k
    · simp [idxList, lookupMeta, bucketIdx, hb]
    · simp only [idxList, lookupMeta, bucketIdx, hb, if_false, if_neg hb, ih (i + 1)]
      cases bucketIdx bs k with
      | none => rfl
      | some j => simp [Option.map_map]; omega

/-- At start index zero the lookup coincides with the bucket index. -/
theorem lookupMeta_idxList_zero
    (bs : List ((String × GenderCategory) × List RegisteringAthlete))
    (k : String × GenderCategory) :
    lookupMeta (idxList bs 0) k = bucketIdx bs k := by
  rw [lookupMeta_idxList]
  cases bucketIdx bs k <;> simp

/-- When the key is already present, inserting a registration modifies
the bucket at its index, appending to its list. -/
theorem addToBuckets_found (ra : RegisteringAthlete) :
    ∀ (bs : List ((String × GenderCategory) × List RegisteringAthlete)) (i : Nat),
    bucketIdx bs (regKey ra) = some i →
    addToBuckets bs ra = modifyAt bs i fun b => (b.1, b.2 ++ [ra]) := by
  intro bs
  induction bs with
  | nil => intro i h; simp [bucketIdx] at h
  | cons b bs ih =>
    intro i h
    by_cases hb : b.1 = regKey ra
    · simp [bucketIdx, hb] at h
      subst h
      simp [addToBuckets, modifyAt, hb]
    · simp only [bucketIdx, hb, if_false, if_neg hb] at h
      cases hj : bucketIdx bs (regKey ra) with
      | none => rw [hj] at h; cases h
      | some j =>
        rw [hj] at h
        simp at h
        subst h
        simp [addToBuckets, hb, modifyAt, ih j hj]

/-- When the key is absent, inserting a registration opens a new bucket
at the end. -/
theorem addToBuckets_notFound (ra : RegisteringAthlete) :
    ∀ (bs : List ((String × GenderCategory) × List RegisteringAthlete)),
    bucketIdx bs (regKey ra) = none →
    addToBuckets bs ra = bs ++ [(regKey ra, [ra])] := by
  intro bs
  induction bs with
  | nil => intro h; rfl
  | cons b bs ih =>
    intro h
    by_cases hb : b.1 = regKey ra
    · simp [bucketIdx, hb] at h
    · simp only [bucketIdx, hb, if_false, if_neg hb] at h
      cases hj : bucketIdx bs (regKey ra) with
      | some j => rw [hj] at h; cases h
      | none => simp [addToBuckets, hb, ih hj]

/-- Inserting a registration keeps every bucket list non-empty. -/
theorem addToBuckets_nonempty (ra : RegisteringAthlete) :
    ∀ (bs : List ((String × GenderCategory) × List RegisteringAthlete)),
    (∀ b ∈ bs, b.2 ≠ []) → ∀ b ∈ addToBuckets bs ra, b.2 ≠ [] := by
  intro bs
  induction bs with
  | nil =>
    intro _ b hb
    simp [addToBuckets] at hb
    subst hb
    simp
  | cons b0 bs ih =>
    intro h b hb
    by_cases hb0 : b0.1 = regKey ra
    · simp only [addToBuckets, hb0, if_pos rfl] at hb
      rcases List.mem_cons.mp hb with h1 | h1
      · subst h1; simp
      · exact h b (List.mem_cons_of_mem _ h1)
    · simp only [addToBuckets, hb0, if_false, if_neg hb0] at hb
      rcases List.mem_cons.mp hb with h1 | h1
      · rw [h1]; exact h b0 (List.mem_cons_self _ _)
      · exact ih (fun x hx => h x (List.mem_cons_of_mem _ hx)) b h1

/-- Modifying a bucket without touching its key leaves the index list
unchanged. -/
theorem idxList_modifyAt
    (f : (String × GenderCategory) × List RegisteringAthlete →
      (String × GenderCategory) × List RegisteringAthlete)
    (hf : ∀ b, (f b).1 = b.1) :
    ∀ (bs : List ((String × GenderCategory) × List RegisteringAthlete))
      (i j : Nat), idxList (modifyAt bs i f) j = idxList bs j := by
  intro bs
  induction bs with
  | nil => intro i j; rfl
  | cons b bs ih =>
    intro i j
    cases i with
    | zero => simp [modifyAt, idxList, hf b]
    | succ i2 => simp [modifyAt, idxList, ih i2 (j + 1)]

/-- The index list of a bucket list extended by one bucket. -/
theorem idxList_append_single :
    ∀ (bs : List ((String × GenderCategory) × List RegisteringAthlete))
      (b : (String × GenderCategory) × List RegisteringAthlete) (i : Nat),
    idxList (bs ++ [b]) i = idxList bs i ++ [(b.1, i + bs.length)] := by
  intro bs
  induction bs with
  | nil => intro b i; simp [idxList]
  | cons b0 bs ih =>
    intro b i
    have hnat : i + 1 + bs.length = i + (bs.length + 1) := by omega
    simp only [List.cons_append, idxList, List.length_cons, List.append_eq]
    rw [ih b (i + 1), hnat]

/-- Mapping commutes with an in-place modification when the mapped
function intertwines the two modifications on every element of the
list. -/
theorem map_modifyAt {α β : Type} (g : α → β) (g2 : β → β) (f : α → α) :
    ∀ (l : List α) (i : Nat), (∀ x ∈ l, g (f x) = g2 (g x)) →
    (modifyAt l i f).map g = modifyAt (l.map g) i g2 := by
  intro l
  induction l with
  | nil => intro i _; rfl
  | cons x xs ih =>
    intro i h
    cases i with
    | zero => simp [modifyAt, h x (List.mem_cons_self _ _)]
    | succ i2 =>
      simp [modifyAt, ih i2 fun y hy => h y (List.mem_cons_of_mem _ hy)]

/-- Appending a registration to a non-empty bucket appends the athlete
built with the registration's bracket. -/
theorem bucketAthletes_append (rs : List RegisteringAthlete)
    (ra : RegisteringAthlete) (h : rs ≠ []) :
    bucketAthletes (rs ++ [ra]) =
      bucketAthletes rs ++ [mkAthleteOf ra ra.gender_category] := by
  cases rs with
  | nil => exact absurd rfl h
  | cons r rest => simp [bucketAthletes, List.map_append]

/-- The bucketing loop refines the spec-side grouping: starting from any
bucket state with non-empty buckets, processing registrations whose
weight classes all parse yields exactly the tournaments of the folded
bucket list. -/
theorem regLoop_buckets (name : String) (date : NaiveDate) (place : String)
    (club : Club) :
    ∀ (rest : List RegisteringAthlete)
      (bs : List ((String × GenderCategory) × List RegisteringAthlete)),
    (∀ b ∈ bs, b.2 ≠ []) →
    (∀ r ∈ rest, (WeightCategory.from_str r.weight_category).isSome = true) →
    regLoop name date place club rest (idxList bs 0)
        (bs.map (bucketTournament name date place club)) =
      some ((rest.foldl addToBuckets bs).map
        (bucketTournament name date place club)) := by
  intro rest
  induction rest with
  | nil => intro bs hne hp; simp [regLoop]
  | cons ra rest ih =>
    intro bs hne hp
    have hra := hp ra (List.mem_cons_self _ _)
    obtain ⟨wc, hwc⟩ := Option.isSome_iff_exists.mp hra
    have hrest : ∀ r ∈ rest, (WeightCategory.from_str r.weight_category).isSome = true :=
      fun r hr => hp r (List.mem_cons_of_mem _ hr)
    have hpw : parsedWeight ra = wc := by simp [parsedWeight, hwc]
    rw [List.foldl_cons]
    cases hidx : bucketIdx bs (ra.age_category, ra.gender_category) with
    | some i =>
      have hfound := addToBuckets_found ra bs i (by simpa [regKey] using hidx)
      have hmap : (addToBuckets bs ra).map (bucketTournament name date place club) =
          modifyAt (bs.map (bucketTournament name date place club)) i
            (fun t => { t with athletes := t.athletes ++
              [Athlete.new ra.given_name ra.sur_name ra.birth_year ra.belt wc
                ra.gender_category] }) := by
        rw [hfound]
        refine map_modifyAt _ _ _ bs i fun b hb => ?_
        simp [bucketTournament, Tournament.new,
          bucketAthletes_append b.2 ra (hne b hb), mkAthleteOf, hpw]
      have hidxl : idxList (addToBuckets bs ra) 0 = idxList bs 0 := by
        rw [hfound]
        exact idxList_modifyAt (fun b => (b.1, b.2 ++ [ra])) (fun b => rfl) bs i 0
      simp only [regLoop, lookupMeta_idxList_zero, hidx, hwc]
      rw [← hmap, ← hidxl]
      exact ih (addToBuckets bs ra) (addToBuckets_nonempty ra bs hne) hrest
    | none =>
      have hnf := addToBuckets_notFound ra bs (by simpa [regKey] using hidx)
      have hmap : (addToBuckets bs ra).map (bucketTournament name date place club) =
          bs.map (bucketTournament name date place club) ++
            [Tournament.new name date place ra.age_category ra.gender_category
              club [Athlete.new ra.given_name ra.sur_name ra.birth_year ra.belt
                wc ra.gender]] := by
        rw [hnf]
        simp [List.map_append, bucketTournament, Tournament.new, bucketAthletes,
          mkAthleteOf, hpw, regKey]
      have hidxl : idxList (addToBuckets bs ra) 0 =
          idxList bs 0 ++ [((ra.age_category, ra.gender_category), bs.length)] := by
        rw [hnf, idxList_append_single]
        simp [regKey]
      simp only [regLoop, lookupMeta_idxList_zero, hidx, hwc, List.length_map]
      rw [← hmap, ← hidxl]
      exact ih (addToBuckets bs ra) (addToBuckets_nonempty ra bs hne) hrest

/-- Claim C1: when every registration's weight-class string parses,
registering_athletes_to_tournaments returns exactly one Tournament per
distinct (age-category, bracket) key — compared by exact equality — in
order of first appearance, each carrying the athletes built from that
key's registrations in input order. -/
theorem registering_groups_by_key (regs : List RegisteringAthlete)
    (name : String) (date : NaiveDate) (place : String) (club : Club)
    (h : ∀ r ∈ regs, (WeightCategory.from_str r.weight_category).isSome = true) :
    registering_athletes_to_tournaments regs name date place club =
      some ((specBuckets regs).map (bucketTournament name date place club)) := by
  have hrun := regLoop_buckets name date place club regs [] (by simp) h
  simpa [registering_athletes_to_tournaments, specBuckets, idxList] using hrun

/-- Witness for claim C1 at the spec's bucketing example: registrations
A and B share the key (U18, Mixed) and C has key (U21, Male). -/
theorem registering_groups_by_key_witness :
    (∀ r ∈ [raA, raB, raC],
      (WeightCategory.from_str r.weight_category).isSome = true) ∧
    registering_athletes_to_tournaments [raA, raB, raC] "Cup" date0 "Town" club0 =
      some ((specBuckets [raA, raB, raC]).map
        (bucketTournament "Cup" date0 "Town" club0)) :=
  ⟨by decide,
   registering_groups_by_key [raA, raB, raC] "Cup" date0 "Town" club0 (by decide)⟩

/-- A successful association-list lookup returns the value of some
entry. -/
theorem lookupMeta_mem :
    ∀ (meta : List ((String × GenderCategory) × Nat))
      (k : String × GenderCategory) (i : Nat),
    lookupMeta meta k = some i → ∃ e ∈ meta, e.2 = i := by
  intro meta
  induction meta with
  | nil => intro k i h; cases h
  | cons e es ih =>
    intro k i h
    by_cases he : e.1 = k
    · simp [lookupMeta, he] at h
      exact ⟨e, List.mem_cons_self _ _, h⟩
    · simp only [lookupMeta, he, if_false, if_neg he] at h
      obtain ⟨e2, he2, hv⟩ := ih k i h
      exact ⟨e2, List.mem_cons_of_mem _ he2, hv⟩

/-- In-place modification preserves the length of a list. -/
theorem modifyAt_length {α : Type} (f : α → α) :
    ∀ (l : List α) (i : Nat), (modifyAt l i f).length = l.length := by
  intro l
  induction l with
  | nil => intro i; rfl
  | cons x xs ih =>
    intro i
    cases i with
    | zero => simp [modifyAt]
    | succ i2 => simp [modifyAt, ih i2]

/-- Every element of a modified list is an original element or the
image of one. -/
theorem modifyAt_mem {α : Type} (f : α → α) :
    ∀ (l : List α) (i : Nat) (y : α), y ∈ modifyAt l i f →
    y ∈ l ∨ ∃ x ∈ l, y = f x := by
  intro l
  induction l with
  | nil => intro i y h; cases h
  | cons x xs ih =>
    intro i y h
    cases i with
    | zero =>
      rcases List.mem_cons.mp h with h1 | h1
      · exact Or.inr ⟨x, List.mem_cons_self _ _, h1⟩
      · exact Or.inl (List.mem_cons_of_mem _ h1)
    | succ i2 =>
      rcases List.mem_cons.mp h with h1 | h1
      · exact Or.inl (h1 ▸ List.mem_cons_self _ _)
      · rcases ih i2 y h1 with h2 | ⟨z, hz, hy⟩
        · exact Or.inl (List.mem_cons_of_mem _ h2)
        · exact Or.inr ⟨z, List.mem_cons_of_mem _ hz, hy⟩

/-- The athlete total of a cons. -/
theorem totalAthletes_cons (t : Tournament) (l : List Tournament) :
    totalAthletes (t :: l) = t.athletes.length + totalAthletes l := by
  simp [totalAthletes]

/-- Appending one athlete to the tournament at an in-range index raises
the athlete total by one. -/
theorem totalAthletes_modifyAt (a : Athlete) :
    ∀ (l : List Tournament) (i : Nat), i < l.length →
    totalAthletes (modifyAt l i fun t =>
      { t with athletes := t.athletes ++ [a] }) = totalAthletes l + 1 := by
  intro l
  induction l with
  | nil => intro i h; simp at h
  | cons t l ih =>
    intro i h
    cases i with
    | zero =>
      simp only [modifyAt, totalAthletes_cons, List.length_append,
        List.length_cons, List.length_nil]
      omega
    | succ i2 =>
      have h2 : i2 < l.length := by simp at h; omega
      simp only [modifyAt, totalAthletes_cons, ih i2 h2]
      omega

/-- Appending one tournament adds its athlete count to the total. -/
theorem totalAthletes_append_single (l : List Tournament) (t : Tournament) :
    totalAthletes (l ++ [t]) = totalAthletes l + t.athletes.length := by
  simp [totalAthletes]

/-- Counting invariant of the bucketing loop: with every map entry
pointing into the accumulator and every accumulated tournament
non-empty, a successful run ends with non-empty tournaments only and
adds exactly one athlete per processed registration. -/
theorem regLoop_total (name : String) (date : NaiveDate) (place : String)
    (club : Club) :
    ∀ (rest : List RegisteringAthlete) meta ret ts,
    (∀ e ∈ meta, e.2 < ret.length) →
    (∀ t ∈ ret, t.athletes ≠ []) →
    regLoop name date place club rest meta ret = some ts →
    (∀ t ∈ ts, t.athletes ≠ []) ∧
      totalAthletes ts = totalAthletes ret + rest.length := by
  intro rest
  induction rest with
  | nil =>
    intro meta ret ts hm hne h
    simp [regLoop] at h
    subst h
    exact ⟨hne, by simp⟩
  | cons ra rest ih =>
    intro meta ret ts hm hne h
    rw [regLoop] at h
    cases hidx : lookupMeta meta (ra.age_category, ra.gender_category) with
    | some i =>
      rw [hidx] at h
      cases hwc : WeightCategory.from_str ra.weight_category with
      | none => rw [hwc] at h; cases h
      | some wc =>
        rw [hwc] at h
        have hi : i < ret.length := by
          obtain ⟨e, he, hv⟩ := lookupMeta_mem meta _ i hidx
          exact hv ▸ hm e he
        have hm2 : ∀ e ∈ meta, e.2 <
            (modifyAt ret i fun t => { t with athletes := t.athletes ++
              [Athlete.new ra.given_name ra.sur_name ra.birth_year ra.belt wc
                ra.gender_category] }).length := by
          rw [modifyAt_length]
          exact hm
        have hne2 : ∀ t ∈ modifyAt ret i fun t =>
            { t with athletes := t.athletes ++
              [Athlete.new ra.given_name ra.sur_name ra.birth_year ra.belt wc
                ra.gender_category] }, t.athletes ≠ [] := by
          intro t ht
          rcases modifyAt_mem _ ret i t ht with h1 | ⟨x, _, hx⟩
          · exact hne t h1
          · rw [hx]; simp
        obtain ⟨h1, h2⟩ := ih meta _ ts hm2 hne2 h
        refine ⟨h1, ?_⟩
        rw [h2, totalAthletes_modifyAt _ ret i hi]
        simp [List.length_cons]
        omega
    | none =>
      rw [hidx] at h
      cases hwc : WeightCategory.from_str ra.weight_category with
      | none => rw [hwc] at h; cases h
      | some wc =>
        rw [hwc] at h
        have hm2 : ∀ e ∈ meta ++ [((ra.age_category, ra.gender_category),
            ret.length)], e.2 < (ret ++ [Tournament.new name date place
              ra.age_category ra.gender_category club
              [Athlete.new ra.given_name ra.sur_name ra.birth_year ra.belt wc
                ra.gender]]).length := by
          intro e he
          rw [List.length_append]
          rcases List.mem_append.mp he with h1 | h1
          · have := hm e h1
            simp at this ⊢
            omega
          · simp at h1
            rw [h1]
            simp
        have hne2 : ∀ t ∈ ret ++ [Tournament.new name date place
            ra.age_category ra.gender_category club
            [Athlete.new ra.given_name ra.sur_name ra.birth_year ra.belt wc
              ra.gender]], t.athletes ≠ [] := by
          intro t ht
          rcases List.mem_append.mp ht with h1 | h1
          · exact hne t h1
          · simp at h1
            rw [h1]
            simp [Tournament.new]
        obtain ⟨h1, h2⟩ := ih _ _ ts hm2 hne2 h
        refine ⟨h1, ?_⟩
        rw [h2, totalAthletes_append_single]
        simp [Tournament.new, List.length_cons]
        omega

/-- Claim C9: whenever the bucketing succeeds, every returned Tournament
has a non-empty athlete list and the athlete total equals the number of
input registrations. -/
theorem registering_preserves_count (regs : List RegisteringAthlete)
    (name : String) (date : NaiveDate) (place : String) (club : Club)
    (ts : List Tournament)
    (h : registering_athletes_to_tournaments regs name date place club = some ts) :
    (∀ t ∈ ts, t.athletes ≠ []) ∧ totalAthletes ts = regs.length := by
  have hrun := regLoop_total name date place club regs [] [] ts
    (by simp) (by simp) h
  simpa [totalAthletes] using hrun

/-- The concrete tournament list produced from registrations A, B, C. -/
def tsABC : List Tournament :=
  (specBuckets [raA, raB, raC]).map (bucketTournament "Cup" date0 "Town" club0)

/-- Witness for claim C9 at the concrete three-registration input. -/
theorem registering_preserves_count_witness :
    (registering_athletes_to_tournaments [raA, raB, raC] "Cup" date0 "Town" club0 =
      some tsABC) ∧
    ((∀ t ∈ tsABC, t.athletes ≠ []) ∧ totalAthletes tsABC = 3) :=
  ⟨by decide,
   registering_preserves_count [raA, raB, raC] "Cup" date0 "Town" club0 tsABC
     (by decide)⟩

end EMelder
